import Mathlib

/-!
Shallow embedding of the I2C driver of `src/src/i2c.rs` (ch32v00x-hal).

Two complementary views of the hardware are used:

* a register-file view (`Regs`) for the pure register-programming code:
  `i2c1` (initialisation, lines 76-131) and `release` (lines 134-139);
* a trace view for the transaction engine: the status registers are an
  oracle (`HW`) answering each read, every register interaction is
  recorded as an `Event`, and the unbounded polling loops are given fuel
  (`none` models a loop that never exits).

Machine integers are `Nat` with explicit `% 2 ^ 32` where the Rust `u32`
multiplication may wrap (release-profile wrapping semantics), `% 2 ^ 16`
for the `as u16` cast and `% 256` for `u8` casts; the Rust division panic
on a zero divisor is modelled by `Option`.
-/

namespace I2C

/-- Duty cycle enum of `i2c.rs` lines 21-26. -/
inductive DutyCycle where
  | Perc33
  | Perc36
deriving DecidableEq, Repr

/-- Configuration struct of `i2c.rs` lines 30-33; `speed` is the Hz value
of the `HertzU32`. -/
structure I2cConfig where
  speed : Nat
  duty : DutyCycle
deriving DecidableEq, Repr

/-- Preset of lines 38-43: 100 kHz, 33% duty. -/
def slow_mode : I2cConfig := ⟨100000, DutyCycle.Perc33⟩

/-- Preset of lines 47-52: 400 kHz, 33% duty. -/
def fast_mode_preset : I2cConfig := ⟨400000, DutyCycle.Perc33⟩

/-- Preset of lines 56-61: 1 MHz, 33% duty. -/
def fast_mode_plus : I2cConfig := ⟨1000000, DutyCycle.Perc33⟩

/-- Line 106: `config.speed > 100u32.kHz()`, a comparison of Hz values. -/
def fast_mode (cfg : I2cConfig) : Bool := 100000 < cfg.speed

/-- Rust `u32::clamp(lo, hi)` as used on line 103. -/
def clampNat (x lo hi : Nat) : Nat := if x < lo then lo else if x > hi then hi else x

/-- Line 103: `I2C1::clock(clocks).to_MHz().clamp(2, 36)` followed by the
`as u8` cast of line 104; `to_MHz` is truncating division by 10^6. -/
def freqField (clockHz : Nat) : Nat := clampNat (clockHz / 1000000) 2 36 % 256

/-- Lines 110-114: the CCR quotient. The divisor is the wrapping `u32`
product `speed * k`; a zero divisor makes the Rust division panic, which is
modelled as `none`. -/
def ccrQuot (clockHz : Nat) (cfg : I2cConfig) : Option Nat :=
  let d : Nat :=
    match fast_mode cfg, cfg.duty with
    | false, _ => cfg.speed * 2 % 2 ^ 32
    | true, DutyCycle.Perc33 => cfg.speed * 3 % 2 ^ 32
    | true, DutyCycle.Perc36 => cfg.speed * 25 % 2 ^ 32
  if d = 0 then none else some (clockHz / d)

/-- CTLR1 bits touched by this driver (enable, acknowledge, start, stop,
software reset). -/
structure Ctlr1 where
  pe : Bool
  ack : Bool
  start : Bool
  stop : Bool
  swrst : Bool
deriving DecidableEq, Repr

/-- CKCFGR fields programmed on lines 117-124: divider, fast-mode flag,
duty-cycle bit. -/
structure Ckcfgr where
  ccr : Nat
  f_s : Bool
  duty : Bool
deriving DecidableEq, Repr

/-- The I2C1 register fields this driver programs: CTLR1, the CTLR2 FREQ
field and CKCFGR. -/
structure Regs where
  ctlr1 : Ctlr1
  freq : Nat
  ckcfgr : Ckcfgr
deriving DecidableEq, Repr

/-- Power-on defaults, the state after `I2C1::reset` (line 86). -/
def resetRegs : Regs := ⟨⟨false, false, false, false, false⟩, 0, ⟨0, false, false⟩⟩

/-- Register programming of `I2c::i2c1` (lines 84-130) restricted to the
I2C1 register block: RCC enable + reset (power-on defaults), SWRST set then
cleared, FREQ field (clamped MHz), CKCFGR (divider as `u16`, fast-mode bit,
duty bit), then PE and ACK. The prior register state `r` is discarded by
the reset, exactly as in the source. -/
def i2c1 (clockHz : Nat) (cfg : I2cConfig) (r : Regs) : Option Regs :=
  let r0 := resetRegs
  let r1 := { r0 with ctlr1 := { r0.ctlr1 with swrst := true } }
  let r2 := { r1 with ctlr1 := { r1.ctlr1 with swrst := false } }
  let r3 := { r2 with freq := freqField clockHz }
  match ccrQuot clockHz cfg with
  | none => none
  | some q =>
    let r4 := { r3 with
      ckcfgr := ⟨q % 2 ^ 16, fast_mode cfg, decide (cfg.duty = DutyCycle.Perc36)⟩ }
    let r5 := { r4 with ctlr1 := { r4.ctlr1 with pe := true } }
    let r6 := { r5 with ctlr1 := { r5.ctlr1 with ack := true } }
    some r6

/-- The peripheral struct of lines 13-17: register block plus the two owned
pins. -/
structure I2c (Scl Sda : Type) where
  i2c : Regs
  scl : Scl
  sda : Sda

/-- Lines 134-139: clear the PE bit, hand back the three resources. -/
def release {Scl Sda : Type} (d : I2c Scl Sda) : Regs × Scl × Sda :=
  ({ d.i2c with ctlr1 := { d.i2c.ctlr1 with pe := false } }, d.scl, d.sda)

/-! ### Trace model of the transaction engine (lines 141-287) -/

/-- STAR1 bits the driver inspects (`star1::R`). -/
structure Star1 where
  sb : Bool
  addr : Bool
  txE : Bool
  btf : Bool
  rxNE : Bool
  berr : Bool
  af : Bool
  arlo : Bool
  ovr : Bool
deriving DecidableEq, Repr

/-- STAR2 bits the driver inspects (`star2::R`). -/
structure Star2 where
  busy : Bool
  msl : Bool
  tra : Bool
deriving DecidableEq, Repr

/-- Hardware oracle: `s1 t` / `s2 t` is the value the t-th status-register
read returns (each read of either register advances t); `data k` is the byte
the k-th DATAR read returns. Quantifying theorems over every oracle covers
every possible behaviour of the volatile status registers. -/
structure HW where
  s1 : Nat → Star1
  s2 : Nat → Star2
  data : Nat → Nat

/-- Read counters: `t` counts status-register reads, `d` counts DATAR
reads. -/
structure Clk where
  t : Nat
  d : Nat
deriving DecidableEq, Repr

/-- One recorded interaction with the register block. -/
inductive Event where
  | readS1 (v : Star1)
  | readS2 (v : Star2)
  | setStart
  | setStop
  | writeData (b : Nat)
  | readData (b : Nat)
deriving DecidableEq, Repr

/-- Lines 141-149: do-while poll. Each iteration reads STAR1 then STAR2
(comment on line 144: STAR1 must be read first), applies the predicate to
that matched pair, and repeats while it holds. Fuel bounds the model;
`none` stands for a poll that never exits. -/
def wait_while (hw : HW) (p : Star1 → Star2 → Bool) : Nat → Clk → Option (Clk × List Event)
  | 0, _ => none
  | fuel + 1, c =>
    let v1 := hw.s1 c.t
    let v2 := hw.s2 (c.t + 1)
    let c1 : Clk := ⟨c.t + 2, c.d⟩
    if p v1 v2 then
      match wait_while hw p fuel c1 with
      | none => none
      | some (c2, tr) => some (c2, Event.readS1 v1 :: Event.readS2 v2 :: tr)
    else
      some (c1, [Event.readS1 v1, Event.readS2 v2])

/-- Error kinds of lines 169-175. -/
inductive Error where
  | BusError
  | AcknowledgeFailure
  | ArbitrationLost
  | Overrun
deriving DecidableEq, Repr

/-- Classification chain of lines 155-165 applied to a STAR1 value. -/
def classify (v : Star1) : Except Error Unit :=
  if v.berr then Except.error Error.BusError
  else if v.af then Except.error Error.AcknowledgeFailure
  else if v.arlo then Except.error Error.ArbitrationLost
  else if v.ovr then Except.error Error.Overrun
  else Except.ok ()

/-- Lines 152-166: one STAR1 read, then the priority classification. -/
def check_error (hw : HW) (c : Clk) : Clk × List Event × Except Error Unit :=
  let v := hw.s1 c.t
  (⟨c.t + 1, c.d⟩, [Event.readS1 v], classify v)

/-- Byte loop of lines 209-212: for each byte, poll until TXE, then write
the byte to DATAR. -/
def writeBytes (hw : HW) (fuel : Nat) : List Nat → Clk → Option (Clk × List Event)
  | [], c => some (c, [])
  | b :: bs, c =>
    match wait_while hw (fun a _ => !a.txE) fuel c with
    | none => none
    | some (c1, tr1) =>
      match writeBytes hw fuel bs c1 with
      | none => none
      | some (c2, tr2) => some (c2, tr1 ++ Event.writeData b :: tr2)

/-- Byte loop of lines 258-263: for each destination slot, poll until
{RXNE, MSL, BUSY}, then read DATAR into the slot. Returns the bytes read,
in buffer order. -/
def readBytes (hw : HW) (fuel : Nat) : Nat → Clk → Option (Clk × List Event × List Nat)
  | 0, c => some (c, [], [])
  | n + 1, c =>
    match wait_while hw (fun s1 s2 => !s1.rxNE || !s2.msl || !s2.busy) fuel c with
    | none => none
    | some (c1, tr1) =>
      let b := hw.data c1.d
      match readBytes hw fuel n ⟨c1.t, c1.d + 1⟩ with
      | none => none
      | some (c2, tr2, buf) =>
        some (c2, tr1 ++ Event.readData b :: tr2, b :: buf)

/-- `I2c::write` (lines 184-227): wait while busy; start; wait for
{SB, BUSY, MSL}; write `(address << 1)` (u8 shift, so mod 256) to DATAR;
wait for {ADDR, TXE, BUSY, MSL, TRA}; send the bytes; wait for
{BTF, TXE, BUSY, MSL, TRA}; stop; check errors. -/
def write (hw : HW) (fuel address : Nat) (bytes : List Nat) (c : Clk) :
    Option (Clk × List Event × Except Error Unit) :=
  match wait_while hw (fun _ s2 => s2.busy) fuel c with
  | none => none
  | some (c1, tr1) =>
    match wait_while hw (fun s1 s2 => !s1.sb || !s2.busy || !s2.msl) fuel c1 with
    | none => none
    | some (c2, tr2) =>
      match wait_while hw
          (fun s1 s2 => !s1.addr || !s1.txE || !s2.busy || !s2.msl || !s2.tra) fuel c2 with
      | none => none
      | some (c3, tr3) =>
        match writeBytes hw fuel bytes c3 with
        | none => none
        | some (c4, tr4) =>
          match wait_while hw
              (fun s1 s2 => !s1.btf || !s1.txE || !s2.busy || !s2.msl || !s2.tra) fuel c4 with
          | none => none
          | some (c5, tr5) =>
            let (c6, tr6, r) := check_error hw c5
            some (c6, tr1 ++ Event.setStart :: tr2 ++
              Event.writeData (address <<< 1 % 256) :: tr3 ++ tr4 ++ tr5 ++
              Event.setStop :: tr6, r)

/-- `I2c::read` (lines 236-269): wait while busy; start; wait for
{SB, BUSY, MSL}; write `(address << 1) | 1` to DATAR; wait for
{ADDR, BUSY, MSL}; read the bytes; stop; check errors. -/
def read (hw : HW) (fuel address n : Nat) (c : Clk) :
    Option (Clk × List Event × List Nat × Except Error Unit) :=
  match wait_while hw (fun _ s2 => s2.busy) fuel c with
  | none => none
  | some (c1, tr1) =>
    match wait_while hw (fun s1 s2 => !s1.sb || !s2.busy || !s2.msl) fuel c1 with
    | none => none
    | some (c2, tr2) =>
      match wait_while hw (fun s1 s2 => !s1.addr || !s2.busy || !s2.msl) fuel c2 with
      | none => none
      | some (c3, tr3) =>
        match readBytes hw fuel n c3 with
        | none => none
        | some (c4, tr4, buf) =>
          let (c5, tr5, r) := check_error hw c4
          some (c5, tr1 ++ Event.setStart :: tr2 ++
            Event.writeData ((address <<< 1 % 256) ||| 1) :: tr3 ++ tr4 ++
            Event.setStop :: tr5, buf, r)

/-- `I2c::write_read` (lines 278-287): `write(...)?` then `read(...)`; the
`?` returns the write's error without starting the read. -/
def write_read (hw : HW) (fuel address : Nat) (bytes : List Nat) (n : Nat) (c : Clk) :
    Option (Clk × List Event × List Nat × Except Error Unit) :=
  match write hw fuel address bytes c with
  | none => none
  | some (c1, tr1, Except.error e) => some (c1, tr1, [], Except.error e)
  | some (c1, tr1, Except.ok _) =>
    match read hw fuel address n c1 with
    | none => none
    | some (c2, tr2, buf, r) => some (c2, tr1 ++ tr2, buf, r)

/-- Events that drive the bus: start/stop commands and data-register
traffic (status reads are filtered out). -/
def isCmd : Event → Bool
  | Event.setStart => true
  | Event.setStop => true
  | Event.writeData _ => true
  | Event.readData _ => true
  | _ => false

/-- The command view of a trace. -/
def cmds (tr : List Event) : List Event := tr.filter isCmd

/-- Scan of a trace carrying whether the previous event was a STAR1 read;
a STAR2 read is legal only right after a STAR1 read. -/
def noBadS2 : Bool → List Event → Bool
  | _, [] => true
  | _, Event.readS1 _ :: t => noBadS2 true t
  | prev, Event.readS2 _ :: t => prev && noBadS2 false t
  | _, _ :: t => noBadS2 false t

/-- Checks that every STAR2 read of a trace is immediately preceded by a
STAR1 read: the matched-pair, STAR1-first discipline of lines 143-147. -/
def chunksB (tr : List Event) : Bool := noBadS2 false tr

/-- Bytes a read transaction stores: the next `n` DATAR values starting at
data-read counter `d`, in buffer order. -/
def expectedBuf (hw : HW) : Nat → Nat → List Nat
  | _, 0 => []
  | d, n + 1 => hw.data d :: expectedBuf hw (d + 1) n

/-- An example oracle for the witnesses: a device whose status flags are
always favourable, with BUSY low exactly at the status reads where a new
transaction polls for an idle bus. -/
def s1All : Star1 := ⟨true, true, true, true, true, false, false, false, false⟩

/-- Witness oracle; DATAR reads return 100, 101, 102, ... -/
def hwEx : HW := ⟨fun _ => s1All, fun t => ⟨!(t == 1 || t == 14), true, true⟩, fun k => 100 + k⟩

/-! ### Helper lemmas -/

theorem noBadS2_mono (l : List Event) (h : noBadS2 false l = true) (p : Bool) :
    noBadS2 p l = true := by
  cases l with
  | nil => rfl
  | cons e t =>
    cases e <;> simp [noBadS2] at h ⊢ <;> exact h

theorem noBadS2_append (a b : List Event) (p : Bool) (ha : noBadS2 p a = true)
    (hb : noBadS2 false b = true) : noBadS2 p (a ++ b) = true := by
  induction a generalizing p with
  | nil => exact noBadS2_mono b hb p
  | cons e t ih =>
    cases e with
    | readS1 v => exact ih true ha
    | readS2 v =>
      simp only [noBadS2, Bool.and_eq_true] at ha ⊢
      exact ⟨ha.1, ih false ha.2⟩
    | setStart => exact ih false ha
    | setStop => exact ih false ha
    | writeData b' => exact ih false ha
    | readData b' => exact ih false ha

theorem chunksB_append (a b : List Event) (ha : chunksB a = true)
    (hb : chunksB b = true) : chunksB (a ++ b) = true :=
  noBadS2_append a b false ha hb

theorem chunksB_cons_of_cmd (e : Event) (he : isCmd e = true) (l : List Event) :
    chunksB (e :: l) = chunksB l := by
  cases e <;> first | rfl | simp [isCmd] at he

theorem cmds_nil : cmds [] = [] := rfl

theorem cmds_append (a b : List Event) : cmds (a ++ b) = cmds a ++ cmds b :=
  List.filter_append a b

theorem cmds_cons (e : Event) (l : List Event) :
    cmds (e :: l) = if isCmd e = true then e :: cmds l else cmds l :=
  List.filter_cons

theorem expectedBuf_eq (hw : HW) : ∀ n d, expectedBuf hw d n =
    (List.range n).map (fun i => hw.data (d + i)) := by
  intro n
  induction n with
  | zero => intro d; rfl
  | succ n ih =>
    intro d
    rw [List.range_succ_eq_map, List.map_cons, List.map_map]
    have h1 : ((fun i => hw.data (d + i)) ∘ Nat.succ) = fun i => hw.data (d + 1 + i) := by
      funext i
      show hw.data (d + (i + 1)) = hw.data (d + 1 + i)
      congr 1
      omega
    rw [h1]
    show hw.data d :: expectedBuf hw (d + 1) n = hw.data (d + 0) :: _
    rw [ih (d + 1)]
    simp

theorem wait_while_spec (hw : HW) (p : Star1 → Star2 → Bool) (fuel : Nat) :
    ∀ c c' tr, wait_while hw p fuel c = some (c', tr) →
      cmds tr = [] ∧ chunksB tr = true ∧ c'.d = c.d := by
  induction fuel with
  | zero => intro c c' tr h; simp [wait_while] at h
  | succ fuel ih =>
    intro c c' tr h
    simp only [wait_while] at h
    split at h
    · split at h
      · simp at h
      · next c2 tr2 heq =>
        simp only [Option.some.injEq, Prod.mk.injEq] at h
        obtain ⟨hc, htr⟩ := h
        subst htr
        obtain ⟨i1, i2, i3⟩ := ih ⟨c.t + 2, c.d⟩ c2 tr2 heq
        rw [← hc]
        refine ⟨?_, ?_, i3⟩
        · simp [cmds_cons, isCmd, i1]
        · show noBadS2 false (Event.readS1 _ :: Event.readS2 _ :: tr2) = true
          simp only [noBadS2, Bool.true_and]
          exact i2
    · simp only [Option.some.injEq, Prod.mk.injEq] at h
      obtain ⟨hc, htr⟩ := h
      subst hc
      subst htr
      exact ⟨by simp [cmds_cons, cmds_nil, isCmd], rfl, rfl⟩

theorem writeBytes_spec (hw : HW) (fuel : Nat) :
    ∀ bs c c' tr, writeBytes hw fuel bs c = some (c', tr) →
      cmds tr = bs.map Event.writeData ∧ chunksB tr = true ∧ c'.d = c.d := by
  intro bs
  induction bs with
  | nil =>
    intro c c' tr h
    simp only [writeBytes, Option.some.injEq, Prod.mk.injEq] at h
    obtain ⟨hc, htr⟩ := h
    subst htr
    rw [← hc]
    exact ⟨rfl, rfl, rfl⟩
  | cons b bs ih =>
    intro c c' tr h
    simp only [writeBytes] at h
    split at h
    · simp at h
    · next c1 tr1 heq1 =>
      split at h
      · simp at h
      · next c2 tr2 heq2 =>
        simp only [Option.some.injEq, Prod.mk.injEq] at h
        obtain ⟨hc, htr⟩ := h
        subst htr
        obtain ⟨w1, w2, w3⟩ := wait_while_spec hw _ fuel c c1 tr1 heq1
        obtain ⟨i1, i2, i3⟩ := ih c1 c2 tr2 heq2
        rw [← hc]
        refine ⟨?_, ?_, by rw [i3, w3]⟩
        · simp [cmds_append, cmds_cons, isCmd, w1, i1]
        · refine chunksB_append _ _ w2 ?_
          rw [chunksB_cons_of_cmd _ (by rfl)]
          exact i2

theorem readBytes_spec (hw : HW) (fuel : Nat) :
    ∀ n c c' tr buf, readBytes hw fuel n c = some (c', tr, buf) →
      cmds tr = buf.map Event.readData ∧ chunksB tr = true ∧
      buf = expectedBuf hw c.d n ∧ c'.d = c.d + n := by
  intro n
  induction n with
  | zero =>
    intro c c' tr buf h
    simp only [readBytes, Option.some.injEq, Prod.mk.injEq] at h
    obtain ⟨hc, htr, hbuf⟩ := h
    subst htr
    subst hbuf
    rw [← hc]
    exact ⟨rfl, rfl, rfl, rfl⟩
  | succ n ih =>
    intro c c' tr buf h
    simp only [readBytes] at h
    split at h
    · simp at h
    · next c1 tr1 heq1 =>
      split at h
      · simp at h
      · next c2 tr2 buf2 heq2 =>
        simp only [Option.some.injEq, Prod.mk.injEq] at h
        obtain ⟨hc, htr, hbuf⟩ := h
        subst htr
        subst hbuf
        obtain ⟨w1, w2, w3⟩ := wait_while_spec hw _ fuel c c1 tr1 heq1
        obtain ⟨i1, i2, i3, i4⟩ := ih ⟨c1.t, c1.d + 1⟩ c2 tr2 buf2 heq2
        rw [← hc]
        refine ⟨?_, ?_, ?_, ?_⟩
        · simp [cmds_append, cmds_cons, isCmd, w1, i1]
        · refine chunksB_append _ _ w2 ?_
          rw [chunksB_cons_of_cmd _ (by rfl)]
          exact i2
        · show hw.data c1.d :: buf2 = expectedBuf hw c.d (n + 1)
          rw [i3]
          show _ = hw.data c.d :: expectedBuf hw (c.d + 1) n
          rw [w3]
        · rw [i4]
          simp only [w3]
          omega

theorem chunksB_cons_start (l : List Event) : chunksB (Event.setStart :: l) = chunksB l := rfl

theorem chunksB_cons_stop (l : List Event) : chunksB (Event.setStop :: l) = chunksB l := rfl

theorem chunksB_cons_wd (b : Nat) (l : List Event) :
    chunksB (Event.writeData b :: l) = chunksB l := rfl

theorem write_spec (hw : HW) (fuel a : Nat) (bs : List Nat) (c c' : Clk)
    (tr : List Event) (r : Except Error Unit)
    (h : write hw fuel a bs c = some (c', tr, r)) :
    cmds tr = Event.setStart :: Event.writeData (a <<< 1 % 256) ::
      (bs.map Event.writeData ++ [Event.setStop]) ∧
    chunksB tr = true ∧ c'.d = c.d := by
  simp only [write, check_error] at h
  split at h
  · simp at h
  · next c1 tr1 heq1 =>
    split at h
    · simp at h
    · next c2 tr2 heq2 =>
      split at h
      · simp at h
      · next c3 tr3 heq3 =>
        split at h
        · simp at h
        · next c4 tr4 heq4 =>
          split at h
          · simp at h
          · next c5 tr5 heq5 =>
            simp only [Option.some.injEq, Prod.mk.injEq] at h
            obtain ⟨hc, htr, hr⟩ := h
            subst htr
            obtain ⟨a1, a2, a3⟩ := wait_while_spec hw _ fuel c c1 tr1 heq1
            obtain ⟨b1, b2, b3⟩ := wait_while_spec hw _ fuel c1 c2 tr2 heq2
            obtain ⟨d1, d2, d3⟩ := wait_while_spec hw _ fuel c2 c3 tr3 heq3
            obtain ⟨e1, e2, e3⟩ := writeBytes_spec hw fuel bs c3 c4 tr4 heq4
            obtain ⟨f1, f2, f3⟩ := wait_while_spec hw _ fuel c4 c5 tr5 heq5
            refine ⟨?_, ?_, ?_⟩
            · simp [cmds_append, cmds_cons, cmds_nil, isCmd, a1, b1, d1, e1, f1]
            · simp only [List.append_assoc, List.cons_append]
              refine chunksB_append _ _ a2 ?_
              rw [chunksB_cons_start]
              refine chunksB_append _ _ b2 ?_
              rw [chunksB_cons_wd]
              refine chunksB_append _ _ d2 ?_
              refine chunksB_append _ _ e2 ?_
              refine chunksB_append _ _ f2 ?_
              rw [chunksB_cons_stop]
              rfl
            · rw [← hc]
              show c5.d = c.d
              omega

theorem read_spec (hw : HW) (fuel a n : Nat) (c c' : Clk)
    (tr : List Event) (buf : List Nat) (r : Except Error Unit)
    (h : read hw fuel a n c = some (c', tr, buf, r)) :
    buf = expectedBuf hw c.d n ∧
    cmds tr = Event.setStart :: Event.writeData ((a <<< 1 % 256) ||| 1) ::
      (buf.map Event.readData ++ [Event.setStop]) ∧
    chunksB tr = true ∧ c'.d = c.d + n := by
  simp only [read, check_error] at h
  split at h
  · simp at h
  · next c1 tr1 heq1 =>
    split at h
    · simp at h
    · next c2 tr2 heq2 =>
      split at h
      · simp at h
      · next c3 tr3 heq3 =>
        split at h
        · simp at h
        · next c4 tr4 buf4 heq4 =>
          simp only [Option.some.injEq, Prod.mk.injEq] at h
          obtain ⟨hc, htr, hbuf, hr⟩ := h
          subst htr
          subst hbuf
          obtain ⟨a1, a2, a3⟩ := wait_while_spec hw _ fuel c c1 tr1 heq1
          obtain ⟨b1, b2, b3⟩ := wait_while_spec hw _ fuel c1 c2 tr2 heq2
          obtain ⟨d1, d2, d3⟩ := wait_while_spec hw _ fuel c2 c3 tr3 heq3
          obtain ⟨e1, e2, e3, e4⟩ := readBytes_spec hw fuel n c3 c4 tr4 buf4 heq4
          have hbuf4 : buf4 = expectedBuf hw c.d n := by
            rw [e3, d3, b3, a3]
          refine ⟨hbuf4, ?_, ?_, ?_⟩
          · simp [cmds_append, cmds_cons, cmds_nil, isCmd, a1, b1, d1, e1]
          · simp only [List.append_assoc, List.cons_append]
            refine chunksB_append _ _ a2 ?_
            rw [chunksB_cons_start]
            refine chunksB_append _ _ b2 ?_
            rw [chunksB_cons_wd]
            refine chunksB_append _ _ d2 ?_
            refine chunksB_append _ _ e2 ?_
            rw [chunksB_cons_stop]
            rfl
          · rw [← hc]
            show c4.d = c.d + n
            omega

/-- The address argument affects only the recorded trace: the final
counters and the returned result of `write` are the same for any two
addresses (in particular the code has no error path for out-of-range
addresses). -/
theorem write_result_addr (hw : HW) (fuel : Nat) (a a' : Nat) (bs : List Nat) (c : Clk) :
    Option.map (fun x => (x.1, x.2.2)) (write hw fuel a bs c) =
    Option.map (fun x => (x.1, x.2.2)) (write hw fuel a' bs c) := by
  simp only [write, check_error]
  cases hE1 : wait_while hw (fun _ s2 => s2.busy) fuel c with
  | none => rfl
  | some x1 =>
    obtain ⟨c1, tr1⟩ := x1
    dsimp only
    cases hE2 : wait_while hw (fun s1 s2 => !s1.sb || !s2.busy || !s2.msl) fuel c1 with
    | none => rfl
    | some x2 =>
      obtain ⟨c2, tr2⟩ := x2
      dsimp only
      cases hE3 : wait_while hw
          (fun s1 s2 => !s1.addr || !s1.txE || !s2.busy || !s2.msl || !s2.tra) fuel c2 with
      | none => rfl
      | some x3 =>
        obtain ⟨c3, tr3⟩ := x3
        dsimp only
        cases hE4 : writeBytes hw fuel bs c3 with
        | none => rfl
        | some x4 =>
          obtain ⟨c4, tr4⟩ := x4
          dsimp only
          cases hE5 : wait_while hw
              (fun s1 s2 => !s1.btf || !s1.txE || !s2.busy || !s2.msl || !s2.tra) fuel c4 with
          | none => rfl
          | some x5 =>
            obtain ⟨c5, tr5⟩ := x5
            rfl

/-- Upper bound of the clamp: needed to drop the `u8` cast. -/
theorem freqField_eq (clockHz : Nat) : freqField clockHz = clampNat (clockHz / 1000000) 2 36 := by
  unfold freqField clampNat
  split
  · rfl
  · split
    · rfl
    · next h1 h2 => exact Nat.mod_eq_of_lt (by omega)

/-! ### The claims -/

/-- C1 (amended): the 2-36 MHz clamp applies only to the CTLR2 FREQ field
(a value in MHz); the CCR divider is computed from the unclamped input
clock in Hz. With a 1 MHz input and 100 kHz target the division uses
1 MHz (divider 5, not 10); with 40 MHz it uses 40 MHz (divider 200). -/
theorem c1_clamp_scope (clockHz : Nat) (cfg : I2cConfig) (r : Regs) (q : Nat)
    (h : ccrQuot clockHz cfg = some q) :
    (i2c1 clockHz cfg r).map (fun s => s.freq) = some (clampNat (clockHz / 1000000) 2 36) ∧
    (i2c1 clockHz cfg r).map (fun s => s.ckcfgr.ccr) = some (q % 2 ^ 16) ∧
    ccrQuot 1000000 slow_mode = some (1000000 / (2 * 100000)) ∧
    ccrQuot 40000000 slow_mode = some (40000000 / (2 * 100000)) := by
  refine ⟨?_, ?_, by decide, by decide⟩
  · simp only [i2c1, h]
    simp [freqField_eq]
  · simp only [i2c1, h]
    simp

theorem c1_clamp_scope_witness :
    (i2c1 8000000 fast_mode_preset resetRegs).map (fun s => s.freq) =
      some (clampNat (8000000 / 1000000) 2 36) ∧
    (i2c1 8000000 fast_mode_preset resetRegs).map (fun s => s.ckcfgr.ccr) =
      some (6 % 2 ^ 16) ∧
    ccrQuot 1000000 slow_mode = some (1000000 / (2 * 100000)) ∧
    ccrQuot 40000000 slow_mode = some (40000000 / (2 * 100000)) :=
  c1_clamp_scope 8000000 fast_mode_preset resetRegs 6 (by decide)

/-- C1 counterexample: the claim says the divider at a 1 MHz input clock is
computed from the clamped 2 MHz (2000000 / 200000 = 10); the code yields
1000000 / 200000 = 5. -/
theorem c1_cex :
    (i2c1 1000000 slow_mode resetRegs).map (fun s => s.ckcfgr.ccr) = some 5 ∧
    2000000 / (2 * 100000) = 10 ∧ (5 : Nat) ≠ 10 := by decide

/-- C2: `fast_mode` is `speed > 100 kHz` and the divider is the truncating
quotient of the clock by `2*speed` (standard), `3*speed` (fast 33%) or
`25*speed` (fast 36%); the hypotheses are the `u32` validity side
conditions (nonzero speed, no wrap of the divisor product). The three
concrete cases of the claim are included. -/
theorem c2_divider_formula (clock : Nat) (cfg : I2cConfig)
    (h1 : 0 < cfg.speed) (h2 : cfg.speed * 25 < 2 ^ 32) :
    fast_mode cfg = decide (100000 < cfg.speed) ∧
    ccrQuot clock cfg = some (
      match fast_mode cfg, cfg.duty with
      | false, _ => clock / (2 * cfg.speed)
      | true, DutyCycle.Perc33 => clock / (3 * cfg.speed)
      | true, DutyCycle.Perc36 => clock / (25 * cfg.speed)) ∧
    (fast_mode slow_mode = false ∧ ccrQuot 16000000 slow_mode = some 80) ∧
    (fast_mode fast_mode_preset = true ∧ ccrQuot 8000000 fast_mode_preset = some 6) ∧
    (fast_mode fast_mode_plus = true ∧ ccrQuot 48000000 fast_mode_plus = some 16) := by
  have h32 : (2 : Nat) ^ 32 = 4294967296 := by norm_num
  refine ⟨rfl, ?_, by decide, by decide, by decide⟩
  unfold ccrQuot
  rw [h32] at h2
  cases hfm : fast_mode cfg <;> cases hd : cfg.duty <;>
    simp only [] <;>
    rw [Nat.mod_eq_of_lt (by omega), if_neg (by omega), Nat.mul_comm]

theorem c2_divider_formula_witness :
    fast_mode slow_mode = decide (100000 < slow_mode.speed) ∧
    ccrQuot 16000000 slow_mode = some (
      match fast_mode slow_mode, slow_mode.duty with
      | false, _ => 16000000 / (2 * slow_mode.speed)
      | true, DutyCycle.Perc33 => 16000000 / (3 * slow_mode.speed)
      | true, DutyCycle.Perc36 => 16000000 / (25 * slow_mode.speed)) ∧
    (fast_mode slow_mode = false ∧ ccrQuot 16000000 slow_mode = some 80) ∧
    (fast_mode fast_mode_preset = true ∧ ccrQuot 8000000 fast_mode_preset = some 6) ∧
    (fast_mode fast_mode_plus = true ∧ ccrQuot 48000000 fast_mode_plus = some 16) :=
  c2_divider_formula 16000000 slow_mode (by decide) (by decide)

/-- C6: `check_error` reads STAR1 exactly once (its trace is that single
read) and classifies it with the priority BusError > AcknowledgeFailure >
ArbitrationLost > Overrun, returning success only when all four error bits
are clear; in particular BERR set reports BusError whatever the other
bits. -/
theorem c6_check_error_priority (hw : HW) (c : Clk) :
    check_error hw c =
      (⟨c.t + 1, c.d⟩, [Event.readS1 (hw.s1 c.t)], classify (hw.s1 c.t)) ∧
    (∀ v : Star1,
      ((classify v = Except.error Error.BusError) ↔ v.berr = true) ∧
      ((classify v = Except.error Error.AcknowledgeFailure) ↔
        (v.berr = false ∧ v.af = true)) ∧
      ((classify v = Except.error Error.ArbitrationLost) ↔
        (v.berr = false ∧ v.af = false ∧ v.arlo = true)) ∧
      ((classify v = Except.error Error.Overrun) ↔
        (v.berr = false ∧ v.af = false ∧ v.arlo = false ∧ v.ovr = true)) ∧
      ((classify v = Except.ok ()) ↔
        (v.berr = false ∧ v.af = false ∧ v.arlo = false ∧ v.ovr = false))) := by
  refine ⟨rfl, ?_⟩
  intro v
  obtain ⟨vsb, vaddr, vtx, vbt, vrx, vbe, vaf, var, vov⟩ := v
  cases vbe <;> cases vaf <;> cases var <;> cases vov <;> simp [classify]

/-- C7: `release` clears only the PE bit and returns the register block,
SCL pin and SDA pin unchanged; and re-initialisation is independent of the
prior register state (the init sequence resets the peripheral first), so
re-opening from released resources equals a fresh open. -/
theorem c7_release_frame {Scl Sda : Type} (d : I2c Scl Sda) (clock : Nat)
    (cfg : I2cConfig) (r r' : Regs) :
    (release d).1.ctlr1.pe = false ∧
    (release d).2.1 = d.scl ∧
    (release d).2.2 = d.sda ∧
    (release d).1.ctlr1.ack = d.i2c.ctlr1.ack ∧
    (release d).1.ctlr1.start = d.i2c.ctlr1.start ∧
    (release d).1.ctlr1.stop = d.i2c.ctlr1.stop ∧
    (release d).1.ctlr1.swrst = d.i2c.ctlr1.swrst ∧
    (release d).1.freq = d.i2c.freq ∧
    (release d).1.ckcfgr = d.i2c.ckcfgr ∧
    i2c1 clock cfg r = i2c1 clock cfg r' :=
  ⟨rfl, rfl, rfl, rfl, rfl, rfl, rfl, rfl, rfl, rfl⟩

/-- C9: the CCR field programmed by init is the computed quotient reduced
modulo 2^16 (the `as u16` cast); init always succeeds whenever the
quotient is defined, so an overlarge quotient is silently wrapped (example:
48 MHz at 100 Hz gives quotient 240000 and field 43392), never rejected. -/
theorem c9_ccr_truncation (clock : Nat) (cfg : I2cConfig) (q : Nat) (r : Regs)
    (h : ccrQuot clock cfg = some q) :
    (i2c1 clock cfg r).map (fun s => s.ckcfgr.ccr) = some (q % 2 ^ 16) ∧
    (i2c1 clock cfg r).isSome = true ∧
    ccrQuot 48000000 ⟨100, DutyCycle.Perc33⟩ = some 240000 ∧
    (i2c1 48000000 ⟨100, DutyCycle.Perc33⟩ r).map (fun s => s.ckcfgr.ccr) =
      some 43392 := by
  have h240 : ccrQuot 48000000 ⟨100, DutyCycle.Perc33⟩ = some 240000 := by decide
  refine ⟨?_, ?_, h240, ?_⟩
  · simp only [i2c1, h]
    simp
  · simp only [i2c1, h]
    simp
  · simp only [i2c1, h240]
    simp

theorem c9_ccr_truncation_witness :
    (i2c1 48000000 ⟨100, DutyCycle.Perc33⟩ resetRegs).map (fun s => s.ckcfgr.ccr) =
      some (240000 % 2 ^ 16) ∧
    (i2c1 48000000 ⟨100, DutyCycle.Perc33⟩ resetRegs).isSome = true ∧
    ccrQuot 48000000 ⟨100, DutyCycle.Perc33⟩ = some 240000 ∧
    (i2c1 48000000 ⟨100, DutyCycle.Perc33⟩ resetRegs).map (fun s => s.ckcfgr.ccr) =
      some 43392 :=
  c9_ccr_truncation 48000000 ⟨100, DutyCycle.Perc33⟩ 240000 resetRegs (by decide)

/-- C3: a completed write transaction drives the bus with exactly one
start, then one DATAR write of `(address << 1)` (write-direction bit 0),
then the data bytes in order one at a time, then one stop — and no other
DATAR traffic. -/
theorem c3_write_sequence (hw : HW) (fuel a : Nat) (bs : List Nat) (c : Clk)
    (h : (write hw fuel a bs c).isSome = true) :
    Option.map (fun x => cmds x.2.1) (write hw fuel a bs c) =
      some (Event.setStart :: Event.writeData (a <<< 1 % 256) ::
        (bs.map Event.writeData ++ [Event.setStop])) := by
  cases hE : write hw fuel a bs c with
  | none => rw [hE] at h; simp at h
  | some x =>
    obtain ⟨c', tr, r⟩ := x
    have hs := (write_spec hw fuel a bs c c' tr r hE).1
    simp [Option.map, hs]

theorem c3_write_sequence_witness :
    Option.map (fun x => cmds x.2.1) (write hwEx 1 200 [7, 9] ⟨0, 0⟩) =
      some (Event.setStart :: Event.writeData (200 <<< 1 % 256) ::
        ([7, 9].map Event.writeData ++ [Event.setStop])) :=
  c3_write_sequence hwEx 1 200 [7, 9] ⟨0, 0⟩ (by decide)

/-- C4: a completed read transaction drives the bus with exactly one
start, one DATAR write of `(address << 1) | 1` (read-direction bit set),
exactly n DATAR reads stored in buffer order, and one stop; the stored
bytes are the consecutive DATAR values, i.e. buffer slot i receives the
i-th read. -/
theorem c4_read_sequence (hw : HW) (fuel a n : Nat) (c : Clk)
    (h : (read hw fuel a n c).isSome = true) :
    Option.map (fun x => (cmds x.2.1, x.2.2.1)) (read hw fuel a n c) =
      some (Event.setStart :: Event.writeData ((a <<< 1 % 256) ||| 1) ::
        ((expectedBuf hw c.d n).map Event.readData ++ [Event.setStop]),
        expectedBuf hw c.d n) ∧
    expectedBuf hw c.d n = (List.range n).map (fun i => hw.data (c.d + i)) := by
  refine ⟨?_, expectedBuf_eq hw n c.d⟩
  cases hE : read hw fuel a n c with
  | none => rw [hE] at h; simp at h
  | some x =>
    obtain ⟨c', tr, buf, r⟩ := x
    obtain ⟨hbuf, hcmds, _, _⟩ := read_spec hw fuel a n c c' tr buf r hE
    simp [Option.map, hcmds, hbuf]

theorem c4_read_sequence_witness :
    Option.map (fun x => (cmds x.2.1, x.2.2.1)) (read hwEx 1 200 2 ⟨0, 0⟩) =
      some (Event.setStart :: Event.writeData ((200 <<< 1 % 256) ||| 1) ::
        ((expectedBuf hwEx 0 2).map Event.readData ++ [Event.setStop]),
        expectedBuf hwEx 0 2) ∧
    expectedBuf hwEx 0 2 = (List.range 2).map (fun i => hwEx.data (0 + i)) :=
  c4_read_sequence hwEx 1 200 2 ⟨0, 0⟩ (by decide)

/-- C5: a completed `write_read` is the write transaction followed, only
when the write returned Ok, by the read transaction continuing from the
write's final state: on a write error that error is returned and the trace
is exactly the write's trace (the read is never started); on success the
trace is the two complete start/stop cycles at the same address. -/
theorem c5_write_read_composition (hw : HW) (fuel a : Nat) (bs : List Nat)
    (n : Nat) (c : Clk) (h : (write_read hw fuel a bs n c).isSome = true) :
    (∃ c1 tr1 e, write hw fuel a bs c = some (c1, tr1, Except.error e) ∧
      write_read hw fuel a bs n c = some (c1, tr1, [], Except.error e)) ∨
    (∃ c1 tr1 c2 tr2 buf r, write hw fuel a bs c = some (c1, tr1, Except.ok ()) ∧
      read hw fuel a n c1 = some (c2, tr2, buf, r) ∧
      write_read hw fuel a bs n c = some (c2, tr1 ++ tr2, buf, r) ∧
      cmds (tr1 ++ tr2) =
        (Event.setStart :: Event.writeData (a <<< 1 % 256) ::
          (bs.map Event.writeData ++ [Event.setStop])) ++
        (Event.setStart :: Event.writeData ((a <<< 1 % 256) ||| 1) ::
          (buf.map Event.readData ++ [Event.setStop]))) := by
  cases hW : write hw fuel a bs c with
  | none => simp only [write_read, hW] at h; simp at h
  | some x =>
    obtain ⟨c1, tr1, r1⟩ := x
    cases r1 with
    | error e =>
      left
      exact ⟨c1, tr1, e, rfl, by simp only [write_read, hW]⟩
    | ok u =>
      cases u
      right
      cases hR : read hw fuel a n c1 with
      | none => simp only [write_read, hW, hR] at h; simp at h
      | some y =>
        obtain ⟨c2, tr2, buf, r2⟩ := y
        refine ⟨c1, tr1, c2, tr2, buf, r2, rfl, hR, by simp only [write_read, hW, hR], ?_⟩
        obtain ⟨w1, _, _⟩ := write_spec hw fuel a bs c c1 tr1 _ hW
        obtain ⟨_, r1c, _, _⟩ := read_spec hw fuel a n c1 c2 tr2 buf _ hR
        rw [cmds_append, w1, r1c]

theorem c5_write_read_composition_witness :
    (∃ c1 tr1 e, write hwEx 1 5 [7, 9] ⟨0, 0⟩ = some (c1, tr1, Except.error e) ∧
      write_read hwEx 1 5 [7, 9] 1 ⟨0, 0⟩ = some (c1, tr1, [], Except.error e)) ∨
    (∃ c1 tr1 c2 tr2 buf r, write hwEx 1 5 [7, 9] ⟨0, 0⟩ = some (c1, tr1, Except.ok ()) ∧
      read hwEx 1 5 1 c1 = some (c2, tr2, buf, r) ∧
      write_read hwEx 1 5 [7, 9] 1 ⟨0, 0⟩ = some (c2, tr1 ++ tr2, buf, r) ∧
      cmds (tr1 ++ tr2) =
        (Event.setStart :: Event.writeData (5 <<< 1 % 256) ::
          ([7, 9].map Event.writeData ++ [Event.setStop])) ++
        (Event.setStart :: Event.writeData ((5 <<< 1 % 256) ||| 1) ::
          (buf.map Event.readData ++ [Event.setStop]))) :=
  c5_write_read_composition hwEx 1 5 [7, 9] 1 ⟨0, 0⟩ (by decide)

/-- C8: in every completed write or read transaction, every STAR2 read in
the trace is immediately preceded by a STAR1 read: the two status
registers are polled as a matched pair, STAR1 first, and STAR2 is never
read before STAR1 within a poll. -/
theorem c8_status_read_pairing (hw : HW) (fuel a : Nat) (bs : List Nat)
    (n : Nat) (c : Clk) :
    Option.all (fun x => chunksB x.2.1) (write hw fuel a bs c) = true ∧
    Option.all (fun x => chunksB x.2.1) (read hw fuel a n c) = true := by
  constructor
  · cases hE : write hw fuel a bs c with
    | none => rfl
    | some x =>
      obtain ⟨c', tr, r⟩ := x
      have hs := (write_spec hw fuel a bs c c' tr r hE).2.1
      simpa [Option.all] using hs
  · cases hE : read hw fuel a n c with
    | none => rfl
    | some x =>
      obtain ⟨c', tr, buf, r⟩ := x
      have hs := (read_spec hw fuel a n c c' tr buf r hE).2.2.1
      simpa [Option.all] using hs

/-- C10: for any address value (including 128 and above) the write
transaction transmits `(address << 1) mod 256` and the read transaction
`((address << 1) mod 256) | 1`; bit 7 of the address is discarded
(`2a mod 256 = 2(a mod 128) mod 256`) and the final counters and result of
the transaction do not depend on the address at all, so no error is raised
for out-of-range addresses. -/
theorem c10_address_wrap (hw : HW) (fuel a : Nat) (bs : List Nat) (n : Nat) (c : Clk)
    (h1 : (write hw fuel a bs c).isSome = true)
    (h2 : (read hw fuel a n c).isSome = true) :
    Option.map (fun x => (cmds x.2.1).take 2) (write hw fuel a bs c) =
      some [Event.setStart, Event.writeData (2 * a % 256)] ∧
    Option.map (fun x => (cmds x.2.1).take 2) (read hw fuel a n c) =
      some [Event.setStart, Event.writeData (2 * a % 256 ||| 1)] ∧
    2 * a % 256 = 2 * (a % 128) % 256 ∧
    Option.map (fun x => (x.1, x.2.2)) (write hw fuel a bs c) =
      Option.map (fun x => (x.1, x.2.2)) (write hw fuel (a % 128) bs c) := by
  have hsh : a <<< 1 % 256 = 2 * a % 256 := by
    rw [Nat.shiftLeft_eq, pow_one, Nat.mul_comm]
  refine ⟨?_, ?_, by omega, write_result_addr hw fuel a (a % 128) bs c⟩
  · cases hE : write hw fuel a bs c with
    | none => rw [hE] at h1; simp at h1
    | some x =>
      obtain ⟨c', tr, r⟩ := x
      have hs := (write_spec hw fuel a bs c c' tr r hE).1
      simp [Option.map, hs, hsh]
  · cases hE : read hw fuel a n c with
    | none => rw [hE] at h2; simp at h2
    | some x =>
      obtain ⟨c', tr, buf, r⟩ := x
      obtain ⟨_, hcmds, _, _⟩ := read_spec hw fuel a n c c' tr buf r hE
      simp [Option.map, hcmds, hsh]

theorem c10_address_wrap_witness :
    Option.map (fun x => (cmds x.2.1).take 2) (write hwEx 1 200 [7, 9] ⟨0, 0⟩) =
      some [Event.setStart, Event.writeData (2 * 200 % 256)] ∧
    Option.map (fun x => (cmds x.2.1).take 2) (read hwEx 1 200 2 ⟨0, 0⟩) =
      some [Event.setStart, Event.writeData (2 * 200 % 256 ||| 1)] ∧
    2 * 200 % 256 = 2 * (200 % 128) % 256 ∧
    Option.map (fun x => (x.1, x.2.2)) (write hwEx 1 200 [7, 9] ⟨0, 0⟩) =
      Option.map (fun x => (x.1, x.2.2)) (write hwEx 1 (200 % 128) [7, 9] ⟨0, 0⟩) :=
  c10_address_wrap hwEx 1 200 [7, 9] 2 ⟨0, 0⟩ (by decide) (by decide)

end I2C
